import Mathlib

/-!
Shallow embedding of the playlist-manager account model
(`src/playlist_manager/user.py`) and of the session-bootstrap `login`
function (`src/playlist_manager/ui.py`), together with proofs of the
specification claims about them.

Python strings are modelled as lists of Unicode code points (`PyStr`);
`str.strip` / `str.lower` are modelled code-point-wise (`pyStrip`,
`pyLower`).  Python dicts (which preserve insertion order) are modelled
as association lists; assignment updates an existing key in place and
appends a fresh key at the end, exactly as CPython does.  `random.choice`
is modelled by indexing with an arbitrary draw `k` taken modulo the pool
size.  Exceptions are modelled by an explicit result type `Res` whose
error constructor carries the state at the moment of the raise, so that
atomicity ("raise before mutating") is a real statement about the
embedding, not an artifact of purity.
-/

namespace PlaylistManager

/-- A Python string: the list of its Unicode code points. -/
abbrev PyStr := List Nat

/-- Embed a Lean string literal as a `PyStr`. -/
def pyStr (s : String) : PyStr := s.data.map Char.toNat

/-- The code points removed by Python `str.strip()` with no argument
(space, tab, newline, carriage return, vertical tab, form feed). -/
def isSpaceCode (n : Nat) : Bool :=
  n = 32 || n = 9 || n = 10 || n = 13 || n = 11 || n = 12

/-- Python `str.lower()` on one code point (ASCII letters; other code
points are returned unchanged, which is all the repository relies on). -/
def lowerCode (n : Nat) : Nat := if 65 ≤ n ∧ n ≤ 90 then n + 32 else n

/-- Python `s.strip()`: drop leading and trailing whitespace. -/
def pyStrip (s : PyStr) : PyStr :=
  ((s.dropWhile isSpaceCode).reverse.dropWhile isSpaceCode).reverse

/-- Python `s.lower()`. -/
def pyLower (s : PyStr) : PyStr := s.map lowerCode

/-- `s.strip().lower()`, the normalization applied by every mood-name
argument of the account model. -/
def pyNorm (s : PyStr) : PyStr := pyLower (pyStrip s)

/-! ### Python dicts as insertion-ordered association lists -/

/-- `d[k]` lookup / the `k in d` test (via `Option.isSome`). -/
def dictGet {β : Type} : List (PyStr × β) → PyStr → Option β
  | [], _ => none
  | kv :: t, k => if kv.1 = k then some kv.2 else dictGet t k

/-- `d[k] = v`: update in place when the key is present, append at the
end otherwise (CPython dict semantics). -/
def dictSet {β : Type} (d : List (PyStr × β)) (k : PyStr) (v : β) :
    List (PyStr × β) :=
  if (dictGet d k).isSome then
    d.map (fun kv => if kv.1 = k then (k, v) else kv)
  else d ++ [(k, v)]

/-- `d.pop(k)` restricted to its effect on the mapping: remove the key. -/
def dictPop {β : Type} (d : List (PyStr × β)) (k : PyStr) :
    List (PyStr × β) :=
  d.filter (fun kv => kv.1 ≠ k)

/-- The mood → songs mapping of one account. -/
abbrev Playlists := List (PyStr × List PyStr)

/-- The domain-error taxonomy: `valueError` is the spec's
`ValidationError`, `keyError` its `NotFoundError`, `indexError` its
`RangeError`. -/
inductive Err : Type
  | valueError (msg : String)
  | keyError (msg : String)
  | indexError (msg : String)
  deriving DecidableEq, Repr

/-- The in-memory `User` object (`AccountProfile`). -/
structure User : Type where
  username : PyStr
  password : PyStr
  playlists : Playlists
  favoriteMood : Option PyStr
  deriving DecidableEq, Repr

/-- Outcome of one method call: the returned value and the state after
the call, or the raised error and the state at the moment of the raise. -/
inductive Res (α : Type) : Type
  | ok (val : α) (state : User)
  | err (e : Err) (state : User)
  deriving DecidableEq, Repr

/-! ### Account-model operations (`User` methods in `user.py`) -/

/-- `User.create_mood`. -/
def create_mood (u : User) (mood_name : PyStr) : Res Unit :=
  let mood := pyNorm mood_name
  if mood = [] then .err (.valueError "Mood name cannot be empty.") u
  else if (dictGet u.playlists mood).isSome then
    .err (.valueError "Mood already exists.") u
  else .ok () { u with playlists := dictSet u.playlists mood [] }

/-- `User.add_song`. -/
def add_song (u : User) (mood_name song_name : PyStr) : Res Unit :=
  let mood := pyNorm mood_name
  match dictGet u.playlists mood with
  | none => .err (.keyError "Mood not found.") u
  | some songs =>
    let song := pyStrip song_name
    if song = [] then .err (.valueError "Song name cannot be empty.") u
    else if pyLower song ∈ songs.map pyLower then
      .err (.valueError "Song already exists in playlist.") u
    else .ok () { u with playlists := dictSet u.playlists mood (songs ++ [song]) }

/-- Python `list.pop(i)`: negative indices count from the end; out of
bounds yields `none` (the `IndexError` case). -/
def listPop (l : List PyStr) (i : Int) : Option (PyStr × List PyStr) :=
  let j : Int := if i < 0 then i + l.length else i
  if h : 0 ≤ j ∧ j < l.length then
    some (l.get ⟨j.toNat, by omega⟩, l.eraseIdx j.toNat)
  else none

/-- `User.delete_song`. -/
def delete_song (u : User) (mood_name : PyStr) (index : Int) : Res PyStr :=
  let mood := pyNorm mood_name
  match dictGet u.playlists mood with
  | none => .err (.keyError "Mood not found.") u
  | some songs =>
    match listPop songs index with
    | some (removed, rest) =>
        .ok removed { u with playlists := dictSet u.playlists mood rest }
    | none => .err (.indexError "pop index out of range") u

/-- Python `enumerate(l, start)`. -/
def pyEnum {α : Type} : Nat → List α → List (Nat × α)
  | _, [] => []
  | i, a :: t => (i, a) :: pyEnum (i + 1) t

/-- `User.rename_song`. -/
def rename_song (u : User) (mood_name : PyStr) (index : Int)
    (new_name : PyStr) : Res (PyStr × PyStr) :=
  let mood := pyNorm mood_name
  match dictGet u.playlists mood with
  | none => .err (.keyError "Mood not found.") u
  | some songs =>
    if songs = [] then .err (.valueError "Playlist is empty.") u
    else if h : index < 0 ∨ (songs.length : Int) ≤ index then
      .err (.indexError "Song index out of range.") u
    else
      let newName := pyStrip new_name
      if newName = [] then .err (.valueError "New name cannot be empty.") u
      else
        let j := index.toNat
        let existing_lower :=
          ((pyEnum 0 songs).filter (fun p => p.1 ≠ j)).map (fun p => pyLower p.2)
        if pyLower newName ∈ existing_lower then
          .err (.valueError "A song with that name already exists.") u
        else
          let old := songs.get ⟨j, by omega⟩
          .ok (old, newName)
            { u with playlists := dictSet u.playlists mood (songs.set j newName) }

/-- `User.rename_mood`. -/
def rename_mood (u : User) (old_mood new_mood_name : PyStr) : Res Unit :=
  let old := pyNorm old_mood
  let new := pyNorm new_mood_name
  match dictGet u.playlists old with
  | none => .err (.keyError "Mood not found.") u
  | some songs =>
    if new = [] then .err (.valueError "New mood name cannot be empty.") u
    else if new = old then
      .err (.valueError "New mood name is the same as old.") u
    else if (dictGet u.playlists new).isSome then
      .err (.valueError "A mood with that name already exists.") u
    else .ok () { u with playlists := dictSet (dictPop u.playlists old) new songs }

/-- `User.clear_all_playlists`. -/
def clear_all_playlists (u : User) : Res Unit :=
  if u.playlists = [] then .ok () { u with playlists := [] }
  else .ok () { u with playlists := u.playlists.map (fun kv => (kv.1, [])) }

/-- `User.set_favorite_mood`. -/
def set_favorite_mood (u : User) (mood_name : PyStr) : Res Unit :=
  let mood := pyNorm mood_name
  if (dictGet u.playlists mood).isSome then
    .ok () { u with favoriteMood := some mood }
  else .err (.keyError "Mood not found.") u

/-- Python `random.choice(l)` where the random source drew `k`: index
`k % len(l)`.  Only reached on non-empty pools, so the default is never
returned there. -/
def pyChoice {α : Type} [Inhabited α] (l : List α) (k : Nat) : α :=
  l.getD (k % l.length) default

/-- The flat `[(m, s) for m, songs in playlists.items() for s in songs]`
pool used by `surprise_me` without a mood. -/
def allSongs (u : User) : List (PyStr × PyStr) :=
  u.playlists.flatMap (fun kv => kv.2.map (fun s => (kv.1, s)))

/-- The `# pick from all songs` tail of `User.surprise_me`, reached when
`mood_name` is falsy. -/
def surpriseAll (u : User) (k : Nat) : Res (PyStr × PyStr) :=
  let all := allSongs u
  if all = [] then .err (.valueError "No songs available in any playlist.") u
  else .ok (pyChoice all k) u

/-- `User.surprise_me`; `k` is the draw of the random source.  A `none`
or empty-string `mood_name` is falsy under `if mood_name:`, so both fall
through to the all-songs branch. -/
def surprise_me (u : User) (mood_name : Option PyStr) (k : Nat) :
    Res (PyStr × PyStr) :=
  match mood_name with
  | some m0 =>
    if m0 = [] then surpriseAll u k
    else
      let m := pyNorm m0
      match dictGet u.playlists m with
      | none => .err (.keyError "Mood not found.") u
      | some choices =>
        if choices = [] then .err (.valueError "That playlist is empty.") u
        else .ok (m, pyChoice choices k) u
  | none => surpriseAll u k

/-- The record returned by `User.playlist_statistics`. -/
structure Stats : Type where
  total_songs : Nat
  num_moods : Nat
  longest_playlist : Option PyStr × Nat
  shortest_playlist : Option PyStr × Nat
  deriving DecidableEq, Repr

/-- `User.playlist_statistics`.  `max`/`min` with a key function return
the first item attaining the extremum, as in CPython. -/
def playlist_statistics (u : User) : Stats :=
  match u.playlists with
  | [] => ⟨0, 0, (none, 0), (none, 0)⟩
  | x :: xs =>
    let total := ((x :: xs).map (fun kv => kv.2.length)).sum
    let longest := xs.foldl
      (fun best kv => if best.2.length < kv.2.length then kv else best) x
    let shortest := xs.foldl
      (fun best kv => if kv.2.length < best.2.length then kv else best) x
    ⟨total, (x :: xs).length,
      (some longest.1, longest.2.length), (some shortest.1, shortest.2.length)⟩

/-! ### Session bootstrap (`login` in `ui.py`) -/

/-- A raw stored record as seen by `login`'s shape check
(`isinstance(stored, dict) and "password" in stored and "playlists" in
stored`): either it fails that check, or it carries a password, a
playlists mapping and an optional favorite mood. -/
inductive StoredRecord : Type
  | malformed
  | valid (password : PyStr) (playlists : Playlists) (favoriteMood : Option PyStr)
  deriving DecidableEq, Repr

/-- The stored account collection keyed by username. -/
abbrev UsersDict := List (PyStr × StoredRecord)

/-- `DEFAULT_PLAYLISTS` from `config.py`. -/
def DEFAULT_PLAYLISTS : Playlists :=
  [ (pyStr "happy",
      [ pyStr "Happy - Pharrell Williams",
        pyStr "Can't Stop the Feeling - Justin Timberlake",
        pyStr "Uptown Funk - Bruno Mars" ]),
    (pyStr "sad",
      [ pyStr "Someone Like You - Adele",
        pyStr "Let Her Go - Passenger",
        pyStr "Fix You - Coldplay" ]),
    (pyStr "energetic",
      [ pyStr "Stronger - Kanye West",
        pyStr "Eye of the Tiger - Survivor",
        pyStr "Titanium - David Guetta ft. Sia" ]),
    (pyStr "calm",
      [ pyStr "Weightless - Marconi Union",
        pyStr "River Flows in You - Yiruma",
        pyStr "Sunrise - Norah Jones" ]) ]

/-- Result of one `login` attempt: the constructed `User` object (or
`none` on rejection), the possibly-updated collection, and whether
`save_data` was called. -/
structure LoginResult : Type where
  user : Option User
  users : UsersDict
  saved : Bool
  deriving DecidableEq, Repr

/-- `login` from `ui.py`, over already-read raw input strings (the
source strips both before any check). -/
def login (users : UsersDict) (rawUsername rawPassword : PyStr) : LoginResult :=
  let username := pyStrip rawUsername
  let password := pyStrip rawPassword
  if username = [] then ⟨none, users, false⟩
  else
    match dictGet users username with
    | some .malformed =>
        let users2 := dictSet users username (.valid password DEFAULT_PLAYLISTS none)
        ⟨some ⟨username, password, DEFAULT_PLAYLISTS, none⟩, users2, true⟩
    | some (.valid storedPw pls fav) =>
        if storedPw = password then ⟨some ⟨username, storedPw, pls, fav⟩, users, false⟩
        else ⟨none, users, false⟩
    | none =>
        let users2 := dictSet users username (.valid password DEFAULT_PLAYLISTS none)
        ⟨some ⟨username, password, DEFAULT_PLAYLISTS, none⟩, users2, true⟩

/-! ### Demonstration values used by witnesses and counterexamples -/

/-- A small account used to instantiate the theorems on concrete data. -/
def demoUser : User :=
  ⟨pyStr "alice", pyStr "pw",
   [(pyStr "happy", [pyStr "A", pyStr "B"]), (pyStr "sad", [])], none⟩

/-! ### The two documented invariants of the `playlists` mapping -/

/-- Invariant 1 (per key): non-empty, trimmed, lower-cased. -/
def NormKey (k : PyStr) : Prop := k ≠ [] ∧ pyStrip k = k ∧ pyLower k = k

/-- Invariant 2 (per mood): no two songs equal case-insensitively. -/
def SongsOK (l : List PyStr) : Prop := (l.map pyLower).Nodup

/-- Both invariants of the `playlists` mapping: every entry has a
normalized key and duplicate-free songs, and no two keys are equal even
case-insensitively (which also makes the association list a mapping). -/
def ValidPlaylists (m : Playlists) : Prop :=
  (∀ kv ∈ m, NormKey kv.1 ∧ SongsOK kv.2) ∧
    ((m.map Prod.fst).map pyLower).Nodup

instance (k : PyStr) : Decidable (NormKey k) := by
  unfold NormKey
  infer_instance

instance (l : List PyStr) : Decidable (SongsOK l) := by
  unfold SongsOK
  infer_instance

instance (m : Playlists) : Decidable (ValidPlaylists m) := by
  unfold ValidPlaylists
  infer_instance

/-! ## Lemmas about the Python string primitives -/

theorem lowerCode_idem (n : Nat) : lowerCode (lowerCode n) = lowerCode n := by
  unfold lowerCode
  split
  · next h => rw [if_neg (by omega)]
  · rfl

theorem isSpaceCode_lowerCode (n : Nat) :
    isSpaceCode (lowerCode n) = isSpaceCode n := by
  unfold lowerCode
  split
  · next h =>
    have h1 : isSpaceCode (n + 32) = false := by
      simp only [isSpaceCode, Bool.or_eq_false_iff, decide_eq_false_iff_not]
      omega
    have h2 : isSpaceCode n = false := by
      simp only [isSpaceCode, Bool.or_eq_false_iff, decide_eq_false_iff_not]
      omega
    rw [h1, h2]
  · rfl

theorem pyLower_idem (s : PyStr) : pyLower (pyLower s) = pyLower s := by
  unfold pyLower
  rw [List.map_map]
  exact List.map_congr_left (fun a _ => lowerCode_idem a)

/-- `pyStrip` through Mathlib's right-drop. -/
theorem pyStrip_eq (s : PyStr) :
    pyStrip s = List.rdropWhile isSpaceCode (s.dropWhile isSpaceCode) := rfl

theorem dropWhile_eq_self_of_head? {α : Type} (p : α → Bool) (l : List α)
    (h : ∀ a, l.head? = some a → p a = false) : List.dropWhile p l = l := by
  cases l with
  | nil => rfl
  | cons a t =>
    rw [List.dropWhile_cons, h a rfl]
    simp

theorem dropWhile_rdropWhile_dropWhile {α : Type} (p : α → Bool) (l : List α) :
    List.dropWhile p (List.rdropWhile p (List.dropWhile p l)) =
      List.rdropWhile p (List.dropWhile p l) := by
  apply dropWhile_eq_self_of_head?
  intro a ha
  obtain ⟨r, hr⟩ := List.rdropWhile_prefix p (List.dropWhile p l)
  have hne : List.rdropWhile p (List.dropWhile p l) ≠ [] := by
    intro hnil; rw [hnil] at ha; exact Option.noConfusion ha
  have hh : (List.dropWhile p l).head? = some a := by
    rw [← hr, List.head?_append_of_ne_nil _ hne, ha]
  have := List.head?_dropWhile_not p l
  rw [hh] at this
  exact this

theorem pyStrip_idem (s : PyStr) : pyStrip (pyStrip s) = pyStrip s := by
  rw [pyStrip_eq s, pyStrip_eq, dropWhile_rdropWhile_dropWhile,
    List.rdropWhile_idempotent]

theorem pyStrip_pyLower_comm (s : PyStr) :
    pyStrip (pyLower s) = pyLower (pyStrip s) := by
  have hc : (isSpaceCode ∘ lowerCode) = isSpaceCode :=
    funext fun n => isSpaceCode_lowerCode n
  unfold pyStrip pyLower
  rw [List.dropWhile_map, hc, ← List.map_reverse, List.dropWhile_map, hc,
    ← List.map_reverse]

theorem pyStrip_pyNorm (s : PyStr) : pyStrip (pyNorm s) = pyNorm s := by
  unfold pyNorm
  rw [pyStrip_pyLower_comm, pyStrip_idem]

theorem pyLower_pyNorm (s : PyStr) : pyLower (pyNorm s) = pyNorm s :=
  pyLower_idem _

/-- A non-empty normalized mood name satisfies the key invariant. -/
theorem normKey_pyNorm {s : PyStr} (h : pyNorm s ≠ []) : NormKey (pyNorm s) :=
  ⟨h, pyStrip_pyNorm s, pyLower_pyNorm s⟩

/-! ## Lemmas about the dict model -/

theorem dictGet_isSome_iff {β : Type} (d : List (PyStr × β)) (k : PyStr) :
    (dictGet d k).isSome ↔ k ∈ d.map Prod.fst := by
  induction d with
  | nil => simp [dictGet]
  | cons kv t ih =>
    by_cases h : kv.1 = k
    · simp [dictGet, h]
    · simp [dictGet, h, ih, Ne.symm h]

theorem dictGet_eq_none_iff {β : Type} (d : List (PyStr × β)) (k : PyStr) :
    dictGet d k = none ↔ k ∉ d.map Prod.fst := by
  rw [← dictGet_isSome_iff, Option.not_isSome_iff_eq_none]

theorem dictGet_mem {β : Type} {d : List (PyStr × β)} {k : PyStr} {v : β}
    (h : dictGet d k = some v) : (k, v) ∈ d := by
  induction d with
  | nil => exact absurd h (by simp [dictGet])
  | cons kv t ih =>
    by_cases hk : kv.1 = k
    · rw [dictGet, if_pos hk] at h
      injection h with h2
      subst h2
      subst hk
      exact List.mem_cons_self _ _
    · rw [dictGet, if_neg hk] at h
      exact List.mem_cons_of_mem _ (ih h)

theorem dictSet_of_isSome {β : Type} {d : List (PyStr × β)} {k : PyStr}
    (h : (dictGet d k).isSome) (v : β) :
    dictSet d k v = d.map (fun kv => if kv.1 = k then (k, v) else kv) := by
  rw [dictSet, if_pos h]

theorem dictSet_of_none {β : Type} {d : List (PyStr × β)} {k : PyStr}
    (h : dictGet d k = none) (v : β) : dictSet d k v = d ++ [(k, v)] := by
  rw [dictSet, if_neg (by rw [h]; simp)]

theorem keys_dictSet_of_isSome {β : Type} {d : List (PyStr × β)} {k : PyStr}
    (h : (dictGet d k).isSome) (v : β) :
    (dictSet d k v).map Prod.fst = d.map Prod.fst := by
  rw [dictSet_of_isSome h, List.map_map]
  exact List.map_congr_left (fun kv _ => by
    by_cases hk : kv.1 = k <;> simp [hk])

theorem mem_dictSet {β : Type} {d : List (PyStr × β)} {k : PyStr} {v : β}
    {kv' : PyStr × β} (h : kv' ∈ dictSet d k v) : kv' = (k, v) ∨ kv' ∈ d := by
  rw [dictSet] at h
  split at h
  · obtain ⟨kv, hkv, hup⟩ := List.mem_map.mp h
    by_cases hk : kv.1 = k
    · rw [if_pos hk] at hup; exact Or.inl hup.symm
    · rw [if_neg hk] at hup; exact Or.inr (hup ▸ hkv)
  · rcases List.mem_append.mp h with h1 | h1
    · exact Or.inr h1
    · exact Or.inl (List.mem_singleton.mp h1)

theorem mem_dictPop {β : Type} {d : List (PyStr × β)} {k : PyStr}
    {kv' : PyStr × β} (h : kv' ∈ dictPop d k) : kv' ∈ d ∧ kv'.1 ≠ k := by
  rw [dictPop] at h
  exact ⟨List.mem_of_mem_filter h, by simpa using List.of_mem_filter h⟩

theorem keys_dictPop {β : Type} (d : List (PyStr × β)) (k : PyStr) :
    (dictPop d k).map Prod.fst = (d.map Prod.fst).filter (fun x => x ≠ k) := by
  rw [dictPop, List.filter_map]
  rfl

theorem dictPop_append {β : Type} (d1 d2 : List (PyStr × β)) (k : PyStr) :
    dictPop (d1 ++ d2) k = dictPop d1 k ++ dictPop d2 k := by
  unfold dictPop
  exact List.filter_append _ _

theorem dictPop_eq_self {β : Type} {d : List (PyStr × β)} {k : PyStr}
    (h : k ∉ d.map Prod.fst) : dictPop d k = d := by
  rw [dictPop, List.filter_eq_self]
  intro kv hkv
  simp only [ne_eq, decide_eq_true_eq]
  intro hk
  exact h (List.mem_map.mpr ⟨kv, hkv, hk⟩)

theorem dictGet_append_right {β : Type} {d1 : List (PyStr × β)}
    (d2 : List (PyStr × β)) {k : PyStr} (h : k ∉ d1.map Prod.fst) :
    dictGet (d1 ++ d2) k = dictGet d2 k := by
  induction d1 with
  | nil => rfl
  | cons kv t ih =>
    simp only [List.map_cons, List.mem_cons, not_or] at h
    rw [List.cons_append, dictGet, if_neg (fun hh => h.1 hh.symm)]
    exact ih h.2

theorem dictGet_singleton {β : Type} (k : PyStr) (v : β) :
    dictGet [(k, v)] k = some v := by
  simp [dictGet]

theorem dictGet_dictPop_self {β : Type} (d : List (PyStr × β)) (k : PyStr) :
    dictGet (dictPop d k) k = none := by
  rw [dictGet_eq_none_iff, keys_dictPop]
  intro h
  have := List.of_mem_filter h
  simp at this

/-- If every key of `m` satisfies the key invariant, lower-casing the
key list is the identity. -/
theorem lowered_keys_eq {m : Playlists}
    (h : ∀ kv ∈ m, NormKey kv.1 ∧ SongsOK kv.2) :
    (m.map Prod.fst).map pyLower = m.map Prod.fst := by
  rw [List.map_map]
  exact List.map_congr_left (fun kv hkv => (h kv hkv).1.2.2)

/-! ## Inversion lemmas: what a successful call tells us -/

theorem create_mood_ok {u : User} {m : PyStr} {u' : User}
    (h : create_mood u m = .ok () u') :
    pyNorm m ≠ [] ∧ dictGet u.playlists (pyNorm m) = none ∧
      u' = { u with playlists := dictSet u.playlists (pyNorm m) [] } := by
  simp only [create_mood] at h
  split at h
  · exact absurd h (by simp)
  · split at h
    · exact absurd h (by simp)
    · next h1 h2 =>
      injection h with _ h3
      exact ⟨h1, Option.not_isSome_iff_eq_none.mp (by simpa using h2), h3.symm⟩

theorem add_song_ok {u : User} {m s : PyStr} {u' : User}
    (h : add_song u m s = .ok () u') :
    ∃ songs, dictGet u.playlists (pyNorm m) = some songs ∧
      pyStrip s ≠ [] ∧ pyLower (pyStrip s) ∉ songs.map pyLower ∧
      u' = { u with
              playlists := dictSet u.playlists (pyNorm m) (songs ++ [pyStrip s]) } := by
  simp only [add_song] at h
  split at h
  · exact absurd h (by simp)
  · next songs hget =>
    split at h
    · exact absurd h (by simp)
    · split at h
      · exact absurd h (by simp)
      · next h1 h2 =>
        injection h with _ h3
        exact ⟨songs, hget, h1, h2, h3.symm⟩

theorem listPop_inv {l : List PyStr} {i : Int} {x : PyStr} {rest : List PyStr}
    (h : listPop l i = some (x, rest)) :
    ∃ j : Nat, j < l.length ∧ l.get? j = some x ∧ rest = l.eraseIdx j ∧
      (j : Int) = (if i < 0 then i + l.length else i) ∧
      -(l.length : Int) ≤ i ∧ i < (l.length : Int) := by
  simp only [listPop] at h
  by_cases hi : i < 0
  · simp only [if_pos hi] at h ⊢
    by_cases hb : 0 ≤ i + (l.length : Int) ∧ i + (l.length : Int) < (l.length : Int)
    · rw [dif_pos hb] at h
      injection h with h1
      injection h1 with hx hrest
      refine ⟨(i + (l.length : Int)).toNat, by omega, ?_, hrest.symm, by omega,
        by omega, by omega⟩
      rw [List.get?_eq_get (by omega)]
      exact congrArg some hx
    · rw [dif_neg hb] at h
      exact absurd h (by simp)
  · simp only [if_neg hi] at h ⊢
    by_cases hb : 0 ≤ i ∧ i < (l.length : Int)
    · rw [dif_pos hb] at h
      injection h with h1
      injection h1 with hx hrest
      refine ⟨i.toNat, by omega, ?_, hrest.symm, by omega, by omega, by omega⟩
      rw [List.get?_eq_get (by omega)]
      exact congrArg some hx
    · rw [dif_neg hb] at h
      exact absurd h (by simp)

theorem listPop_eq_none_iff {l : List PyStr} {i : Int} :
    listPop l i = none ↔ ¬(-(l.length : Int) ≤ i ∧ i < (l.length : Int)) := by
  simp only [listPop]
  set J : Int := if i < 0 then i + l.length else i with hJ
  have hiff : (0 ≤ J ∧ J < (l.length : Int)) ↔
      (-(l.length : Int) ≤ i ∧ i < (l.length : Int)) := by
    rw [hJ]; split <;> omega
  by_cases hb : 0 ≤ J ∧ J < (l.length : Int)
  · rw [dif_pos hb]
    exact iff_of_false (by simp) (not_not_intro (hiff.mp hb))
  · rw [dif_neg hb]
    exact iff_of_true rfl ((not_congr hiff).mp hb)

theorem delete_song_ok {u : User} {m : PyStr} {i : Int} {r : PyStr} {u' : User}
    (h : delete_song u m i = .ok r u') :
    ∃ songs rest, dictGet u.playlists (pyNorm m) = some songs ∧
      listPop songs i = some (r, rest) ∧
      u' = { u with playlists := dictSet u.playlists (pyNorm m) rest } := by
  simp only [delete_song] at h
  split at h
  · exact absurd h (by simp)
  · next songs hget =>
    split at h
    · next removed rest hpop =>
      injection h with h1 h2
      exact ⟨songs, rest, hget, h1 ▸ hpop, h2.symm⟩
    · exact absurd h (by simp)

theorem rename_song_ok {u : User} {m : PyStr} {i : Int} {nn : PyStr}
    {r : PyStr × PyStr} {u' : User} (h : rename_song u m i nn = .ok r u') :
    ∃ songs, dictGet u.playlists (pyNorm m) = some songs ∧ songs ≠ [] ∧
      0 ≤ i ∧ i < (songs.length : Int) ∧ pyStrip nn ≠ [] ∧
      pyLower (pyStrip nn) ∉
        ((pyEnum 0 songs).filter (fun p => p.1 ≠ i.toNat)).map (fun p => pyLower p.2) ∧
      u' = { u with
              playlists :=
                dictSet u.playlists (pyNorm m) (songs.set i.toNat (pyStrip nn)) } := by
  simp only [rename_song] at h
  split at h
  · exact absurd h (by simp)
  · next songs hget =>
    split at h
    · exact absurd h (by simp)
    · next hne =>
      split at h
      · exact absurd h (by simp)
      · next hidx =>
        split at h
        · exact absurd h (by simp)
        · next hnn =>
          split at h
          · exact absurd h (by simp)
          · next hdup =>
            injection h with _ h2
            exact ⟨songs, hget, hne, by omega, by omega, hnn, hdup, h2.symm⟩

theorem rename_mood_ok {u : User} {a b : PyStr} {u' : User}
    (h : rename_mood u a b = .ok () u') :
    ∃ songs, dictGet u.playlists (pyNorm a) = some songs ∧ pyNorm b ≠ [] ∧
      pyNorm b ≠ pyNorm a ∧ dictGet u.playlists (pyNorm b) = none ∧
      u' = { u with
              playlists :=
                dictSet (dictPop u.playlists (pyNorm a)) (pyNorm b) songs } := by
  simp only [rename_mood] at h
  split at h
  · exact absurd h (by simp)
  · next songs hget =>
    split at h
    · exact absurd h (by simp)
    · split at h
      · exact absurd h (by simp)
      · split at h
        · exact absurd h (by simp)
        · next h1 h2 h3 =>
          injection h with _ h4
          exact ⟨songs, hget, h1, h2,
            Option.not_isSome_iff_eq_none.mp (by simpa using h3), h4.symm⟩

theorem set_favorite_mood_ok {u : User} {m : PyStr} {u' : User}
    (h : set_favorite_mood u m = .ok () u') :
    (dictGet u.playlists (pyNorm m)).isSome ∧
      u' = { u with favoriteMood := some (pyNorm m) } := by
  simp only [set_favorite_mood] at h
  split at h
  · next h1 =>
    injection h with _ h2
    exact ⟨h1, h2.symm⟩
  · exact absurd h (by simp)

theorem clear_all_playlists_ok (u : User) :
    clear_all_playlists u =
      .ok () { u with playlists := u.playlists.map (fun kv => (kv.1, [])) } := by
  simp only [clear_all_playlists]
  split
  · next h => rw [h]; rfl
  · rfl

/-! ## Invariant preservation machinery (claim C1) -/

theorem mem_pyEnum {α : Type} (start : Nat) (l : List α) (q : Nat × α) :
    q ∈ pyEnum start l ↔ ∃ i, l.get? i = some q.2 ∧ q.1 = start + i := by
  induction l generalizing start with
  | nil => simp [pyEnum]
  | cons a t ih =>
    simp only [pyEnum, List.mem_cons, ih (start + 1)]
    constructor
    · rintro (h | ⟨i, hi, hq⟩)
      · exact ⟨0, by rw [h]; simp, by rw [h]; simp⟩
      · exact ⟨i + 1, by simpa using hi, by omega⟩
    · rintro ⟨i, hi, hq⟩
      cases i with
      | zero =>
        left
        have h2 : a = q.2 := by simpa using hi
        have h1 : q.1 = start := by omega
        obtain ⟨q1, q2⟩ := q
        simp only at h1 h2
        rw [h1, ← h2]
      | succ i2 =>
        right
        exact ⟨i2, by simpa using hi, by omega⟩

theorem nodup_set {α : Type} :
    ∀ (L : List α) (j : Nat) (x : α), L.Nodup →
      (∀ i, i ≠ j → L.get? i ≠ some x) → (L.set j x).Nodup
  | [], _, _, _, _ => by simp
  | a :: t, 0, x, h, hc => by
      show (x :: t).Nodup
      rw [List.nodup_cons] at h ⊢
      refine ⟨?_, h.2⟩
      intro hx
      obtain ⟨i2, hi2⟩ := List.mem_iff_get?.mp hx
      exact hc (i2 + 1) (by omega) (by simpa using hi2)
  | a :: t, j + 1, x, h, hc => by
      show (a :: t.set j x).Nodup
      rw [List.nodup_cons] at h ⊢
      refine ⟨?_, nodup_set t j x h.2 ?_⟩
      · intro ha
        rcases List.mem_or_eq_of_mem_set ha with h1 | h1
        · exact h.1 h1
        · exact hc 0 (by omega) (by simp [h1])
      · intro i hij hgi
        exact hc (i + 1) (by omega) (by simpa using hgi)

/-- The duplicate check of `rename_song` (which skips the renamed index)
is exactly what is needed to keep the songs of a mood case-insensitively
duplicate-free after the in-place replacement. -/
theorem songsOK_set {songs : List PyStr} {j : Nat} {nn : PyStr}
    (hs : SongsOK songs)
    (hdup : pyLower nn ∉
      ((pyEnum 0 songs).filter (fun p => p.1 ≠ j)).map (fun p => pyLower p.2)) :
    SongsOK (songs.set j nn) := by
  unfold SongsOK at hs ⊢
  rw [List.map_set]
  apply nodup_set _ _ _ hs
  intro i hij hgi
  rw [List.get?_map] at hgi
  cases hsg : songs.get? i with
  | none => rw [hsg] at hgi; exact Option.noConfusion hgi
  | some s =>
    rw [hsg] at hgi
    simp only [Option.map_some'] at hgi
    injection hgi with hgi2
    apply hdup
    apply List.mem_map.mpr
    refine ⟨(i, s), List.mem_filter.mpr ?_, hgi2⟩
    exact ⟨(mem_pyEnum 0 songs (i, s)).mpr ⟨i, hsg, by omega⟩, by simpa using hij⟩

/-- Appending one song that is not a case-insensitive duplicate keeps
the songs invariant. -/
theorem songsOK_append {songs : List PyStr} {s : PyStr} (hs : SongsOK songs)
    (h : pyLower s ∉ songs.map pyLower) : SongsOK (songs ++ [s]) := by
  unfold SongsOK at hs ⊢
  rw [List.map_append]
  rw [List.nodup_append]
  exact ⟨hs, List.nodup_singleton _, fun x hx hx2 => by
    rw [List.mem_singleton.mp hx2] at hx
    exact h hx⟩

/-- Removing a song keeps the songs invariant. -/
theorem songsOK_eraseIdx {songs : List PyStr} (hs : SongsOK songs) (j : Nat) :
    SongsOK (songs.eraseIdx j) :=
  ((List.eraseIdx_sublist songs j).map pyLower).nodup hs

/-- Overwriting the song list of an existing mood with one that
satisfies the songs invariant preserves both invariants. -/
theorem validPlaylists_dictSet_existing {m : Playlists} {k : PyStr}
    {w v : List PyStr} (hm : ValidPlaylists m) (h : dictGet m k = some w)
    (hs : SongsOK v) : ValidPlaylists (dictSet m k v) := by
  have hsome : (dictGet m k).isSome := by rw [h]; rfl
  constructor
  · intro kv hkv
    rcases mem_dictSet hkv with h1 | h1
    · rw [h1]
      exact ⟨(hm.1 _ (dictGet_mem h)).1, hs⟩
    · exact hm.1 _ h1
  · rw [keys_dictSet_of_isSome hsome]
    exact hm.2

/-- Removing one mood preserves both invariants. -/
theorem validPlaylists_dictPop {m : Playlists} (hm : ValidPlaylists m)
    (k : PyStr) : ValidPlaylists (dictPop m k) := by
  constructor
  · intro kv hkv
    exact hm.1 _ (mem_dictPop hkv).1
  · rw [keys_dictPop]
    exact hm.2.sublist (List.Sublist.map _ (List.filter_sublist _))

/-- Appending a fresh, normalized mood preserves both invariants. -/
theorem validPlaylists_append_new {m : Playlists} {mood : PyStr}
    {songs : List PyStr} (hm : ValidPlaylists m) (hk : NormKey mood)
    (hs : SongsOK songs) (hmem : mood ∉ m.map Prod.fst) :
    ValidPlaylists (m ++ [(mood, songs)]) := by
  constructor
  · intro kv hkv
    rcases List.mem_append.mp hkv with h1 | h1
    · exact hm.1 _ h1
    · rw [List.mem_singleton.mp h1]
      exact ⟨hk, hs⟩
  · rw [List.map_append, List.map_append]
    rw [List.nodup_append]
    refine ⟨hm.2, by simp, ?_⟩
    intro x hx hx2
    rw [lowered_keys_eq hm.1] at hx
    simp only [List.map_cons, List.map_nil, List.mem_singleton] at hx2
    rw [hx2, hk.2.2] at hx
    exact hmem hx

/-- C1: starting from any `AccountProfile` whose `playlists` mapping
satisfies the two documented invariants (keys non-empty, trimmed,
lower-cased and case-insensitively distinct; songs of each mood
case-insensitively duplicate-free), every successful run of
`create_mood`, `add_song`, `delete_song`, `rename_song`, `rename_mood`,
`clear_all_playlists` or `set_favorite_mood` yields a `playlists`
mapping that still satisfies both invariants. -/
theorem operations_preserve_invariants (u : User)
    (hu : ValidPlaylists u.playlists) :
    (∀ m u', create_mood u m = .ok () u' → ValidPlaylists u'.playlists) ∧
    (∀ m s u', add_song u m s = .ok () u' → ValidPlaylists u'.playlists) ∧
    (∀ m i r u', delete_song u m i = .ok r u' → ValidPlaylists u'.playlists) ∧
    (∀ m i nn r u', rename_song u m i nn = .ok r u' → ValidPlaylists u'.playlists) ∧
    (∀ a b u', rename_mood u a b = .ok () u' → ValidPlaylists u'.playlists) ∧
    (∀ u', clear_all_playlists u = .ok () u' → ValidPlaylists u'.playlists) ∧
    (∀ m u', set_favorite_mood u m = .ok () u' → ValidPlaylists u'.playlists) := by
  refine ⟨?_, ?_, ?_, ?_, ?_, ?_, ?_⟩
  · intro m u' h
    obtain ⟨h1, h2, h3⟩ := create_mood_ok h
    subst h3
    show ValidPlaylists (dictSet u.playlists (pyNorm m) [])
    rw [dictSet_of_none h2]
    exact validPlaylists_append_new hu (normKey_pyNorm h1) (by simp [SongsOK])
      ((dictGet_eq_none_iff _ _).mp h2)
  · intro m s u' h
    obtain ⟨songs, hget, hne, hdup, h3⟩ := add_song_ok h
    subst h3
    exact validPlaylists_dictSet_existing hu hget
      (songsOK_append (hu.1 _ (dictGet_mem hget)).2 hdup)
  · intro m i r u' h
    obtain ⟨songs, rest, hget, hpop, h3⟩ := delete_song_ok h
    subst h3
    obtain ⟨j, hj, hgj, hrest, _⟩ := listPop_inv hpop
    show ValidPlaylists (dictSet u.playlists (pyNorm m) rest)
    rw [hrest]
    exact validPlaylists_dictSet_existing hu hget
      (songsOK_eraseIdx (hu.1 _ (dictGet_mem hget)).2 j)
  · intro m i nn r u' h
    obtain ⟨songs, hget, hne, h0, hlen, hnn, hdup, h3⟩ := rename_song_ok h
    subst h3
    exact validPlaylists_dictSet_existing hu hget
      (songsOK_set (hu.1 _ (dictGet_mem hget)).2 hdup)
  · intro a b u' h
    obtain ⟨songs, hget, hb, hba, hbnone, h3⟩ := rename_mood_ok h
    subst h3
    have hbk : pyNorm b ∉ u.playlists.map Prod.fst :=
      (dictGet_eq_none_iff _ _).mp hbnone
    have hbk2 : pyNorm b ∉ (dictPop u.playlists (pyNorm a)).map Prod.fst := by
      rw [keys_dictPop]
      intro hc
      exact hbk (List.mem_of_mem_filter hc)
    show ValidPlaylists (dictSet (dictPop u.playlists (pyNorm a)) (pyNorm b) songs)
    rw [dictSet_of_none ((dictGet_eq_none_iff _ _).mpr hbk2)]
    exact validPlaylists_append_new (validPlaylists_dictPop hu (pyNorm a))
      (normKey_pyNorm hb) (hu.1 _ (dictGet_mem hget)).2 hbk2
  · intro u' h
    rw [clear_all_playlists_ok u] at h
    injection h with _ h2
    rw [← h2]
    show ValidPlaylists (u.playlists.map (fun kv => (kv.1, [])))
    constructor
    · intro kv hkv
      obtain ⟨kv0, hkv0, hkveq⟩ := List.mem_map.mp hkv
      rw [← hkveq]
      exact ⟨(hu.1 _ hkv0).1, by simp [SongsOK]⟩
    · have hkeys : (u.playlists.map
          (fun kv => (kv.1, ([] : List PyStr)))).map Prod.fst =
          u.playlists.map Prod.fst := by
        rw [List.map_map]
        rfl
      rw [hkeys]
      exact hu.2
  · intro m u' h
    obtain ⟨_, h2⟩ := set_favorite_mood_ok h
    subst h2
    exact hu

/-- Witness for C1 at a concrete profile: creating mood "CALM " on the
demonstration account keeps the invariants. -/
theorem operations_preserve_invariants_witness :
    ValidPlaylists
      ({ demoUser with
          playlists :=
            dictSet demoUser.playlists (pyNorm (pyStr "CALM ")) [] }).playlists :=
  (operations_preserve_invariants demoUser (by decide)).1 (pyStr "CALM ")
    { demoUser with
        playlists := dictSet demoUser.playlists (pyNorm (pyStr "CALM ")) [] }
    rfl

/-! ## Error inversions: the state carried by a raise (claim C2) -/

theorem create_mood_err {u : User} {m : PyStr} {e : Err} {u' : User}
    (h : create_mood u m = .err e u') : u' = u := by
  simp only [create_mood] at h
  split at h
  · injection h with _ h2
    exact h2.symm
  · split at h
    · injection h with _ h2
      exact h2.symm
    · exact absurd h (by simp)

theorem add_song_err {u : User} {m s : PyStr} {e : Err} {u' : User}
    (h : add_song u m s = .err e u') : u' = u := by
  simp only [add_song] at h
  split at h
  · injection h with _ h2
    exact h2.symm
  · split at h
    · injection h with _ h2
      exact h2.symm
    · split at h
      · injection h with _ h2
        exact h2.symm
      · exact absurd h (by simp)

theorem delete_song_err {u : User} {m : PyStr} {i : Int} {e : Err} {u' : User}
    (h : delete_song u m i = .err e u') : u' = u := by
  simp only [delete_song] at h
  split at h
  · injection h with _ h2
    exact h2.symm
  · split at h
    · exact absurd h (by simp)
    · injection h with _ h2
      exact h2.symm

theorem rename_song_err {u : User} {m : PyStr} {i : Int} {nn : PyStr} {e : Err}
    {u' : User} (h : rename_song u m i nn = .err e u') : u' = u := by
  simp only [rename_song] at h
  split at h
  · injection h with _ h2
    exact h2.symm
  · split at h
    · injection h with _ h2
      exact h2.symm
    · split at h
      · injection h with _ h2
        exact h2.symm
      · split at h
        · injection h with _ h2
          exact h2.symm
        · split at h
          · injection h with _ h2
            exact h2.symm
          · exact absurd h (by simp)

theorem rename_mood_err {u : User} {a b : PyStr} {e : Err} {u' : User}
    (h : rename_mood u a b = .err e u') : u' = u := by
  simp only [rename_mood] at h
  split at h
  · injection h with _ h2
    exact h2.symm
  · split at h
    · injection h with _ h2
      exact h2.symm
    · split at h
      · injection h with _ h2
        exact h2.symm
      · split at h
        · injection h with _ h2
          exact h2.symm
        · exact absurd h (by simp)

theorem set_favorite_mood_err {u : User} {m : PyStr} {e : Err} {u' : User}
    (h : set_favorite_mood u m = .err e u') : u' = u := by
  simp only [set_favorite_mood] at h
  split at h
  · exact absurd h (by simp)
  · injection h with _ h2
    exact h2.symm

theorem surpriseAll_err {u : User} {k : Nat} {e : Err} {u' : User}
    (h : surpriseAll u k = .err e u') : u' = u := by
  simp only [surpriseAll] at h
  split at h
  · injection h with _ h2
    exact h2.symm
  · exact absurd h (by simp)

theorem surprise_me_err {u : User} {mn : Option PyStr} {k : Nat} {e : Err}
    {u' : User} (h : surprise_me u mn k = .err e u') : u' = u := by
  cases mn with
  | none => exact surpriseAll_err h
  | some m0 =>
    simp only [surprise_me] at h
    split at h
    · exact surpriseAll_err h
    · split at h
      · injection h with _ h2
        exact h2.symm
      · split at h
        · injection h with _ h2
          exact h2.symm
        · exact absurd h (by simp)

/-- C2: whenever an account-model operation (`create_mood`, `add_song`,
`delete_song`, `rename_song`, `rename_mood`, `set_favorite_mood`,
`surprise_me`) raises a domain error, the state carried at the raise has
the same `playlists` mapping and the same `favoriteMood` as before the
call: every operation either fully applies or raises before mutating. -/
theorem domain_errors_never_mutate (u : User) :
    (∀ m e u', create_mood u m = .err e u' →
      u'.playlists = u.playlists ∧ u'.favoriteMood = u.favoriteMood) ∧
    (∀ m s e u', add_song u m s = .err e u' →
      u'.playlists = u.playlists ∧ u'.favoriteMood = u.favoriteMood) ∧
    (∀ m i e u', delete_song u m i = .err e u' →
      u'.playlists = u.playlists ∧ u'.favoriteMood = u.favoriteMood) ∧
    (∀ m i nn e u', rename_song u m i nn = .err e u' →
      u'.playlists = u.playlists ∧ u'.favoriteMood = u.favoriteMood) ∧
    (∀ a b e u', rename_mood u a b = .err e u' →
      u'.playlists = u.playlists ∧ u'.favoriteMood = u.favoriteMood) ∧
    (∀ m e u', set_favorite_mood u m = .err e u' →
      u'.playlists = u.playlists ∧ u'.favoriteMood = u.favoriteMood) ∧
    (∀ mn k e u', surprise_me u mn k = .err e u' →
      u'.playlists = u.playlists ∧ u'.favoriteMood = u.favoriteMood) := by
  refine ⟨fun m e u' h => ?_, fun m s e u' h => ?_, fun m i e u' h => ?_,
    fun m i nn e u' h => ?_, fun a b e u' h => ?_, fun m e u' h => ?_,
    fun mn k e u' h => ?_⟩
  · rw [create_mood_err h]
    exact ⟨rfl, rfl⟩
  · rw [add_song_err h]
    exact ⟨rfl, rfl⟩
  · rw [delete_song_err h]
    exact ⟨rfl, rfl⟩
  · rw [rename_song_err h]
    exact ⟨rfl, rfl⟩
  · rw [rename_mood_err h]
    exact ⟨rfl, rfl⟩
  · rw [set_favorite_mood_err h]
    exact ⟨rfl, rfl⟩
  · rw [surprise_me_err h]
    exact ⟨rfl, rfl⟩

/-- Witness for C2: a concrete raising call (`create_mood` with a
whitespace-only name) leaves the demonstration profile intact. -/
theorem domain_errors_never_mutate_witness :
    demoUser.playlists = demoUser.playlists ∧
      demoUser.favoriteMood = demoUser.favoriteMood :=
  (domain_errors_never_mutate demoUser).1 (pyStr " ")
    (.valueError "Mood name cannot be empty.") demoUser rfl

/-- C3: session bootstrap with an empty candidate username, or with a
present, shape-valid record whose stored password differs from the
candidate password, returns a failure indicator (`none`), leaves the
collection unchanged and makes no persistence call. -/
theorem login_rejects_without_change (users : UsersDict) (unRaw pwRaw : PyStr) :
    (pyStrip unRaw = [] → login users unRaw pwRaw = ⟨none, users, false⟩) ∧
    (∀ spw pls fav,
      dictGet users (pyStrip unRaw) = some (.valid spw pls fav) →
      spw ≠ pyStrip pwRaw →
      login users unRaw pwRaw = ⟨none, users, false⟩) := by
  constructor
  · intro h
    simp only [login, if_pos h]
  · intro spw pls fav hget hne
    by_cases hu : pyStrip unRaw = []
    · simp only [login, if_pos hu]
    · simp only [login, if_neg hu]
      split
      · next heq =>
        rw [hget] at heq
        exact absurd heq (by simp)
      · next p pl2 f heq =>
        rw [hget] at heq
        injection heq with heq2
        injection heq2 with h1 h2 h3
        rw [if_neg (h1 ▸ hne)]
      · next heq =>
        rw [hget] at heq
        exact absurd heq (by simp)

/-- Witness for C3: a wrong password against a stored record is
rejected with the collection untouched and nothing saved. -/
theorem login_rejects_without_change_witness :
    login [(pyStr "alice", .valid (pyStr "pw") [] none)]
        (pyStr "alice") (pyStr "wrong") =
      ⟨none, [(pyStr "alice", .valid (pyStr "pw") [] none)], false⟩ :=
  (login_rejects_without_change
      [(pyStr "alice", .valid (pyStr "pw") [] none)]
      (pyStr "alice") (pyStr "wrong")).2
    (pyStr "pw") [] none (by decide) (by decide)

/-- C4 counterexample: `add_song` stores the trimmed song verbatim, not
its lower-cased form — adding " Hello " to mood "sad" appends "Hello",
which differs from the normalized (trimmed, lower-cased) "hello". -/
theorem add_song_not_lowercased :
    add_song demoUser (pyStr "sad") (pyStr " Hello ") =
      .ok () { demoUser with
        playlists := [(pyStr "happy", [pyStr "A", pyStr "B"]),
                      (pyStr "sad", [pyStr "Hello"])] } ∧
    pyStr "Hello" ≠ pyNorm (pyStr " Hello ") := ⟨by decide, by decide⟩

/-- C4 (amended): on every successful `add_song`, the entry appended to
the mood's song list is the trimmed form of the song argument with its
letter case preserved; lower-casing is used only for the mood-name
lookup and the duplicate check. -/
theorem add_song_appends_trimmed (u : User) (m s : PyStr) (u' : User)
    (h : add_song u m s = .ok () u') :
    ∃ songs, dictGet u.playlists (pyNorm m) = some songs ∧
      u'.playlists = dictSet u.playlists (pyNorm m) (songs ++ [pyStrip s]) := by
  obtain ⟨songs, hget, _, _, h3⟩ := add_song_ok h
  exact ⟨songs, hget, by rw [h3]⟩

/-- Witness for C4's amended claim at a concrete call. -/
theorem add_song_appends_trimmed_witness :
    ∃ songs, dictGet demoUser.playlists (pyNorm (pyStr "sad")) = some songs ∧
      ({ demoUser with
          playlists := [(pyStr "happy", [pyStr "A", pyStr "B"]),
                        (pyStr "sad", [pyStr "Hello"])] } : User).playlists =
        dictSet demoUser.playlists (pyNorm (pyStr "sad"))
          (songs ++ [pyStrip (pyStr " Hello ")]) :=
  add_song_appends_trimmed demoUser (pyStr "sad") (pyStr " Hello ") _ rfl

/-- Forward evaluation of a successful `rename_mood`. -/
theorem rename_mood_eval {u : User} {a b : PyStr} {songs : List PyStr}
    (ha : dictGet u.playlists (pyNorm a) = some songs)
    (hbne : pyNorm b ≠ []) (hba : pyNorm b ≠ pyNorm a)
    (hb : dictGet u.playlists (pyNorm b) = none) :
    rename_mood u a b = .ok ()
      { u with
          playlists :=
            dictSet (dictPop u.playlists (pyNorm a)) (pyNorm b) songs } := by
  simp only [rename_mood]
  rw [ha]
  simp only [if_neg hbne, if_neg hba]
  rw [hb]
  rfl

/-- C5: for a profile containing mood `a` and not containing mood `b`
(both already normalized, distinct and non-empty), `rename_mood a b`
followed by `rename_mood b a` succeeds and restores the key `a`, bound
to the same song sequence in the same order, with the same set of mood
keys overall. -/
theorem rename_mood_roundtrip (u : User) (a b : PyStr) (songs : List PyStr)
    (ha : dictGet u.playlists a = some songs)
    (hb : dictGet u.playlists b = none)
    (hna : pyNorm a = a) (hnb : pyNorm b = b)
    (hae : a ≠ []) (hbe : b ≠ []) (hab : a ≠ b) :
    ∃ u1 u2, rename_mood u a b = .ok () u1 ∧ rename_mood u1 b a = .ok () u2 ∧
      dictGet u2.playlists a = some songs ∧
      (∀ k, k ∈ u2.playlists.map Prod.fst ↔ k ∈ u.playlists.map Prod.fst) := by
  have hak : a ∈ u.playlists.map Prod.fst := by
    rw [← dictGet_isSome_iff, ha]
    rfl
  have hbk : b ∉ u.playlists.map Prod.fst := (dictGet_eq_none_iff _ _).mp hb
  have hbkpop : b ∉ (dictPop u.playlists a).map Prod.fst := by
    rw [keys_dictPop]
    intro hc
    exact hbk (List.mem_of_mem_filter hc)
  have hakpop : a ∉ (dictPop u.playlists a).map Prod.fst :=
    (dictGet_eq_none_iff _ _).mp (dictGet_dictPop_self _ _)
  have e1 := @rename_mood_eval u a b songs
    (by rw [hna]; exact ha) (by rw [hnb]; exact hbe)
    (by rw [hna, hnb]; exact fun hh => hab hh.symm) (by rw [hnb]; exact hb)
  rw [hna, hnb, dictSet_of_none ((dictGet_eq_none_iff _ _).mpr hbkpop)] at e1
  have hget1 : dictGet (dictPop u.playlists a ++ [(b, songs)]) b = some songs := by
    rw [dictGet_append_right _ hbkpop, dictGet_singleton]
  have hget1a : dictGet (dictPop u.playlists a ++ [(b, songs)]) a = none := by
    rw [dictGet_append_right _ hakpop]
    simp only [dictGet, if_neg (fun hh : b = a => hab hh.symm)]
  have e2 := @rename_mood_eval
    { u with playlists := dictPop u.playlists a ++ [(b, songs)] } b a songs
    (by rw [hnb]; exact hget1) (by rw [hna]; exact hae)
    (by rw [hna, hnb]; exact hab) (by rw [hna]; exact hget1a)
  rw [hna, hnb] at e2
  have hpop1 : dictPop (dictPop u.playlists a ++ [(b, songs)]) b =
      dictPop u.playlists a := by
    rw [dictPop_append, dictPop_eq_self hbkpop]
    simp [dictPop]
  rw [hpop1, dictSet_of_none ((dictGet_eq_none_iff _ _).mpr hakpop)] at e2
  refine ⟨_, _, e1, e2, ?_, ?_⟩
  · show dictGet (dictPop u.playlists a ++ [(a, songs)]) a = some songs
    rw [dictGet_append_right _ hakpop, dictGet_singleton]
  · intro k
    show k ∈ (dictPop u.playlists a ++ [(a, songs)]).map Prod.fst ↔ _
    rw [List.map_append]
    simp only [List.map_cons, List.map_nil, List.mem_append, List.mem_singleton]
    constructor
    · rintro (hk | hk)
      · rw [keys_dictPop] at hk
        exact List.mem_of_mem_filter hk
      · rw [hk]
        exact hak
    · intro hk
      by_cases hka : k = a
      · exact Or.inr hka
      · refine Or.inl ?_
        rw [keys_dictPop]
        exact List.mem_filter.mpr ⟨hk, by simpa using hka⟩

/-- Witness for C5: renaming "happy" to "joy" and back on the
demonstration profile restores the original mapping. -/
theorem rename_mood_roundtrip_witness :
    ∃ u1 u2, rename_mood demoUser (pyStr "happy") (pyStr "joy") = .ok () u1 ∧
      rename_mood u1 (pyStr "joy") (pyStr "happy") = .ok () u2 ∧
      dictGet u2.playlists (pyStr "happy") = some [pyStr "A", pyStr "B"] ∧
      (∀ k, k ∈ u2.playlists.map Prod.fst ↔
        k ∈ demoUser.playlists.map Prod.fst) :=
  rename_mood_roundtrip demoUser (pyStr "happy") (pyStr "joy")
    [pyStr "A", pyStr "B"] (by decide) (by decide) (by decide) (by decide)
    (by decide) (by decide) (by decide)

/-- C6: `delete_song` resolves indices exactly like Python `list.pop`:
negative indices count from the end (`-n ≤ i < n` resolves to `i + n`
for negative `i`), the resolved song is removed and returned, and any
index outside `[-n, n)` raises the range error with the state carried at
the raise equal to the input state. -/
theorem delete_song_index_semantics (u : User) (mRaw : PyStr)
    (songs : List PyStr) (i : Int)
    (h : dictGet u.playlists (pyNorm mRaw) = some songs) :
    (-(songs.length : Int) ≤ i ∧ i < (songs.length : Int) →
      ∃ (j : Nat) (removed : PyStr),
        (j : Int) = (if i < 0 then i + songs.length else i) ∧
        songs.get? j = some removed ∧
        delete_song u mRaw i = .ok removed
          { u with
              playlists := dictSet u.playlists (pyNorm mRaw) (songs.eraseIdx j) }) ∧
    (¬(-(songs.length : Int) ≤ i ∧ i < (songs.length : Int)) →
      delete_song u mRaw i = .err (.indexError "pop index out of range") u) := by
  constructor
  · intro hbound
    cases hp : listPop songs i with
    | none => exact absurd (listPop_eq_none_iff.mp hp) (not_not_intro hbound)
    | some p =>
      obtain ⟨x, rest⟩ := p
      obtain ⟨j, hj, hgj, hrest, hjite, _, _⟩ := listPop_inv hp
      refine ⟨j, x, hjite, hgj, ?_⟩
      simp only [delete_song, h, hp]
      rw [hrest]
  · intro hbound
    have hp : listPop songs i = none := listPop_eq_none_iff.mpr hbound
    simp only [delete_song, h, hp]

/-- Witness for C6: the spec's concrete scenario — deleting index `-1`
from `"happy" = ["A","B"]` returns `"B"` and leaves `["A"]`. -/
theorem delete_song_index_semantics_witness :
    delete_song demoUser (pyStr "happy") (-1) =
      .ok (pyStr "B")
        { demoUser with
            playlists := [(pyStr "happy", [pyStr "A"]), (pyStr "sad", [])] } := by
  obtain ⟨j, removed, hj, hget, heq⟩ :=
    (delete_song_index_semantics demoUser (pyStr "happy")
      [pyStr "A", pyStr "B"] (-1) (by decide)).1 (by decide)
  have hj1 : j = 1 := by
    simp only [List.length_cons, List.length_nil] at hj
    omega
  subst hj1
  rw [show ([pyStr "A", pyStr "B"] : List PyStr).get? 1 = some (pyStr "B")
    from rfl] at hget
  injection hget with h2
  subst h2
  rw [heq]
  decide

/-- Python `max(items, key=len)`: the fold keeps the first item
attaining the maximum.  Its result is one of the items. -/
theorem foldl_max_mem (x : PyStr × List PyStr) (xs : List (PyStr × List PyStr)) :
    xs.foldl (fun best kv => if best.2.length < kv.2.length then kv else best) x
        = x ∨
      xs.foldl (fun best kv => if best.2.length < kv.2.length then kv else best) x
        ∈ xs := by
  induction xs generalizing x with
  | nil => exact Or.inl rfl
  | cons a t ih =>
    simp only [List.foldl_cons]
    rcases ih (if x.2.length < a.2.length then a else x) with h | h
    · rw [h]
      split
      · exact Or.inr (List.mem_cons_self _ _)
      · exact Or.inl rfl
    · exact Or.inr (List.mem_cons_of_mem _ h)

/-- The fold of `max(items, key=len)` dominates every item. -/
theorem foldl_max_le (x : PyStr × List PyStr) (xs : List (PyStr × List PyStr)) :
    ∀ y ∈ x :: xs, y.2.length ≤
      (xs.foldl (fun best kv => if best.2.length < kv.2.length then kv else best)
        x).2.length := by
  induction xs generalizing x with
  | nil =>
    intro y hy
    rw [List.mem_singleton.mp hy]
    exact Nat.le_refl _
  | cons a t ih =>
    intro y hy
    simp only [List.foldl_cons]
    have hrec := ih (if x.2.length < a.2.length then a else x)
    have hstep : x.2.length ≤ (if x.2.length < a.2.length then a else x).2.length := by
      split <;> omega
    have hstepa : a.2.length ≤ (if x.2.length < a.2.length then a else x).2.length := by
      split <;> omega
    rcases List.mem_cons.mp hy with h1 | h1
    · rw [h1]
      exact le_trans hstep (hrec _ (List.mem_cons_self _ _))
    · rcases List.mem_cons.mp h1 with h2 | h2
      · rw [h2]
        exact le_trans hstepa (hrec _ (List.mem_cons_self _ _))
      · exact hrec y (List.mem_cons_of_mem _ h2)

/-- Python `min(items, key=len)` result is one of the items. -/
theorem foldl_min_mem (x : PyStr × List PyStr) (xs : List (PyStr × List PyStr)) :
    xs.foldl (fun best kv => if kv.2.length < best.2.length then kv else best) x
        = x ∨
      xs.foldl (fun best kv => if kv.2.length < best.2.length then kv else best) x
        ∈ xs := by
  induction xs generalizing x with
  | nil => exact Or.inl rfl
  | cons a t ih =>
    simp only [List.foldl_cons]
    rcases ih (if a.2.length < x.2.length then a else x) with h | h
    · rw [h]
      split
      · exact Or.inr (List.mem_cons_self _ _)
      · exact Or.inl rfl
    · exact Or.inr (List.mem_cons_of_mem _ h)

/-- The fold of `min(items, key=len)` is dominated by every item. -/
theorem foldl_min_le (x : PyStr × List PyStr) (xs : List (PyStr × List PyStr)) :
    ∀ y ∈ x :: xs,
      (xs.foldl (fun best kv => if kv.2.length < best.2.length then kv else best)
        x).2.length ≤ y.2.length := by
  induction xs generalizing x with
  | nil =>
    intro y hy
    rw [List.mem_singleton.mp hy]
    exact Nat.le_refl _
  | cons a t ih =>
    intro y hy
    simp only [List.foldl_cons]
    have hrec := ih (if a.2.length < x.2.length then a else x)
    have hstep : (if a.2.length < x.2.length then a else x).2.length ≤ x.2.length := by
      split <;> omega
    have hstepa : (if a.2.length < x.2.length then a else x).2.length ≤ a.2.length := by
      split <;> omega
    rcases List.mem_cons.mp hy with h1 | h1
    · rw [h1]
      exact le_trans (hrec _ (List.mem_cons_self _ _)) hstep
    · rcases List.mem_cons.mp h1 with h2 | h2
      · rw [h2]
        exact le_trans (hrec _ (List.mem_cons_self _ _)) hstepa
      · exact hrec y (List.mem_cons_of_mem _ h2)

/-- C7: `playlist_statistics` never fails — on an empty mapping it
returns zeros and `(none, 0)` twice; on a non-empty mapping it returns
the total song count, the mood count, and a `(mood, count)` pair with
maximum (resp. minimum) song count; in particular the spec's concrete
scenario holds. -/
theorem playlist_statistics_spec (u : User) :
    (u.playlists = [] →
      playlist_statistics u = ⟨0, 0, (none, 0), (none, 0)⟩) ∧
    (u.playlists ≠ [] →
      (playlist_statistics u).total_songs =
        (u.playlists.map (fun kv => kv.2.length)).sum ∧
      (playlist_statistics u).num_moods = u.playlists.length ∧
      (∃ kv ∈ u.playlists,
        (playlist_statistics u).longest_playlist = (some kv.1, kv.2.length) ∧
        ∀ kv2 ∈ u.playlists, kv2.2.length ≤ kv.2.length) ∧
      (∃ kv ∈ u.playlists,
        (playlist_statistics u).shortest_playlist = (some kv.1, kv.2.length) ∧
        ∀ kv2 ∈ u.playlists, kv.2.length ≤ kv2.2.length)) ∧
    playlist_statistics ⟨pyStr "u", pyStr "p",
        [(pyStr "happy", [pyStr "x", pyStr "y"]), (pyStr "sad", [])], none⟩ =
      ⟨2, 2, (some (pyStr "happy"), 2), (some (pyStr "sad"), 0)⟩ := by
  refine ⟨?_, ?_, by decide⟩
  · intro h
    simp only [playlist_statistics, h]
  · intro h
    cases hpl : u.playlists with
    | nil => exact absurd hpl h
    | cons x xs =>
      simp only [playlist_statistics, hpl]
      refine ⟨trivial, trivial, ?_, ?_⟩
      · rcases foldl_max_mem x xs with hm | hm
        · exact ⟨_, by rw [hm]; exact List.mem_cons_self _ _, rfl, foldl_max_le x xs⟩
        · exact ⟨_, List.mem_cons_of_mem _ hm, rfl, foldl_max_le x xs⟩
      · rcases foldl_min_mem x xs with hm | hm
        · exact ⟨_, by rw [hm]; exact List.mem_cons_self _ _, rfl, foldl_min_le x xs⟩
        · exact ⟨_, List.mem_cons_of_mem _ hm, rfl, foldl_min_le x xs⟩

/-- Witness for C7 at a concrete empty profile. -/
theorem playlist_statistics_spec_witness :
    playlist_statistics ⟨pyStr "e", pyStr "p", [], none⟩ =
      ⟨0, 0, (none, 0), (none, 0)⟩ :=
  (playlist_statistics_spec ⟨pyStr "e", pyStr "p", [], none⟩).1 rfl

/-- C8: `clear_all_playlists` never fails; afterwards the mapping has
exactly the same mood keys (even in the same order), every mood's song
sequence is empty, and both the password and the favorite mood are
unchanged. -/
theorem clear_all_playlists_spec (u : User) :
    ∃ u', clear_all_playlists u = .ok () u' ∧
      u'.playlists.map Prod.fst = u.playlists.map Prod.fst ∧
      (∀ kv ∈ u'.playlists, kv.2 = []) ∧
      u'.password = u.password ∧ u'.favoriteMood = u.favoriteMood := by
  refine ⟨_, clear_all_playlists_ok u, ?_, ?_, rfl, rfl⟩
  · show (u.playlists.map fun kv => (kv.1, [])).map Prod.fst = _
    rw [List.map_map]
    rfl
  · intro kv hkv
    obtain ⟨kv0, _, hkveq⟩ := List.mem_map.mp hkv
    rw [← hkveq]

/-- C9: passing the empty string as the mood argument of `surprise_me`
is treated exactly like omitting it — the draw comes from the pool of
all `(mood, song)` pairs, the only possible error is the empty-pool
`ValidationError`, and no `NotFoundError` is ever raised for the
empty-string mood name. -/
theorem surprise_me_empty_mood (u : User) (k : Nat) :
    surprise_me u (some []) k = surprise_me u none k ∧
    (allSongs u = [] →
      surprise_me u (some []) k =
        .err (.valueError "No songs available in any playlist.") u) ∧
    (allSongs u ≠ [] → ∃ p, surprise_me u (some []) k = .ok p u) ∧
    (∀ msg u', surprise_me u (some []) k ≠ .err (.keyError msg) u') := by
  have hfall : surprise_me u (some []) k = surpriseAll u k := by
    simp [surprise_me]
  have hnone : surprise_me u none k = surpriseAll u k := rfl
  refine ⟨by rw [hfall, hnone], ?_, ?_, ?_⟩
  · intro h
    rw [hfall]
    simp [surpriseAll, h]
  · intro h
    rw [hfall]
    simp only [surpriseAll, if_neg h]
    exact ⟨_, rfl⟩
  · intro msg u' hc
    rw [hfall] at hc
    simp only [surpriseAll] at hc
    split at hc
    · exact absurd hc (by simp)
    · exact absurd hc (by simp)

/-- Witness for C9: on the demonstration profile (which has songs), the
empty-string mood draws successfully from the all-songs pool. -/
theorem surprise_me_empty_mood_witness :
    ∃ p, surprise_me demoUser (some []) 0 = .ok p demoUser :=
  (surprise_me_empty_mood demoUser 0).2.2.1 (by decide)

/-- C10: `rename_song` rejects every negative index — even `-1`, which
`delete_song` would resolve from the end — raising the range error with
the state carried at the raise equal to the input state. -/
theorem rename_song_rejects_negative (u : User) (mRaw nn : PyStr)
    (songs : List PyStr) (i : Int)
    (h : dictGet u.playlists (pyNorm mRaw) = some songs)
    (hne : songs ≠ []) (hi : i < 0) :
    rename_song u mRaw i nn =
      .err (.indexError "Song index out of range.") u := by
  simp only [rename_song, h, if_neg hne]
  rw [dif_pos (Or.inl hi)]

/-- Witness for C10: index `-1` on the non-empty mood "happy" is
rejected while `delete_song` accepts the same index. -/
theorem rename_song_rejects_negative_witness :
    rename_song demoUser (pyStr "happy") (-1) (pyStr "zz") =
      .err (.indexError "Song index out of range.") demoUser :=
  rename_song_rejects_negative demoUser (pyStr "happy") (pyStr "zz")
    [pyStr "A", pyStr "B"] (-1) (by decide) (by decide) (by decide)

end PlaylistManager
